import Mathlib

set_option maxRecDepth 4000

/-! Shallow embedding of go-mcp-server-mds (package mcpmds, server.go):
the frontmatter extractor, the markdown document scan, resource catalog
construction and the read operations. Byte strings are modelled as lists
of characters. -/

deriving instance DecidableEq for Except

/-- Byte strings of the Go code, modelled as lists of characters. -/
abbrev Str := List Char

/-- Whitespace as trimmed by bytes.TrimSpace (the ASCII cases). -/
def isSpaceChar (c : Char) : Bool :=
  c == ' ' || c == '\t' || c == '\n' || c == '\x0b' || c == '\x0c' || c == '\r'

/-- bytes.TrimSpace: drop leading and trailing whitespace. -/
def trimSpace (l : Str) : Str :=
  ((l.dropWhile isSpaceChar).reverse.dropWhile isSpaceChar).reverse

/-- bytes.Index: index of the first occurrence of pat in hay, none when absent
(Go returns -1). -/
def byteIndex (hay pat : Str) : Option Nat :=
  if pat.isPrefixOf hay then some 0
  else
    match hay with
    | [] => none
    | _ :: t => (byteIndex t pat).map (fun n => n + 1)

/-- Split a byte string on a separator character. -/
def splitOnChar (sep : Char) : Str → List Str
  | [] => [[]]
  | c :: t =>
    let r := splitOnChar sep t
    if c == sep then [] :: r
    else
      match r with
      | [] => [[c]]
      | h :: t2 => (c :: h) :: t2

/-- Decimal value of a digit string. -/
def natOfDigits (l : Str) : Nat := l.foldl (fun a c => a * 10 + (c.toNat - 48)) 0

/-- Modelled from the spec: the dynamically-typed values decoded from a
frontmatter block. The decoders themselves (goccy/go-yaml, BurntSushi/toml)
are external collaborators whose code is not in the repository; per the spec
the two numeric families must stay distinct: the YAML notation decodes a
nonnegative integer into the unsigned family (uint64), the TOML notation into
the signed family (int64). -/
inductive FmValue where
  | str (s : Str)
  | uint (n : Nat)
  | int (n : Int)
  | seq (elems : List Str)
deriving DecidableEq

/-- A decoded frontmatter mapping (Go map[string]any), as an association list. -/
abbrev Fm := List (Str × FmValue)

/-- Go map assignment: insert with overwrite. -/
def fmInsert (m : Fm) (k : Str) (v : FmValue) : Fm :=
  if m.any (fun kv => kv.1 == k) then
    m.map (fun kv => if kv.1 == k then (k, v) else kv)
  else m ++ [(k, v)]

/-- Modelled from the spec: value typing of the YAML decoder on the scalar
fragment the spec exercises. A digits-only scalar decodes into the unsigned
integer family; a flow sequence without its closing bracket is a decode
error; any other scalar is a plain string. -/
def parseYamlValue (v : Str) : Except Str FmValue :=
  match v with
  | '[' :: rest =>
    if rest.getLast? == some ']' then
      .ok (.seq ((splitOnChar ',' rest.dropLast).map trimSpace))
    else .error (("yaml: unterminated flow sequence").toList)
  | _ =>
    if !v.isEmpty && v.all Char.isDigit then .ok (.uint (natOfDigits v))
    else .ok (.str v)

/-- Modelled from the spec: line-oriented decode of a YAML mapping block,
"decode bytes into a generic key/value mapping or fail". -/
def yamlLines : List Str → Fm → Except Str Fm
  | [], acc => .ok acc
  | line :: rest, acc =>
    let t := trimSpace line
    if t.isEmpty then yamlLines rest acc
    else
      match t.findIdx? (fun c => c == ':') with
      | none => .error (("yaml: could not find expected colon").toList)
      | some i =>
        match parseYamlValue (trimSpace (t.drop (i + 1))) with
        | .error e => .error e
        | .ok v => yamlLines rest (fmInsert acc (trimSpace (t.take i)) v)

/-- Modelled from the spec: the YAML decoder (external collaborator). -/
def miniYamlUnmarshal (b : Str) : Except Str Fm := yamlLines (splitOnChar '\n' b) []

/-- Modelled from the spec: value typing of the TOML decoder on the fragment
the spec exercises. A digits-only value decodes into the signed integer
family; a basic string without its closing quote is a decode error. -/
def parseTomlValue (v : Str) : Except Str FmValue :=
  match v with
  | '\"' :: rest =>
    if !rest.isEmpty && rest.getLast? == some '\"' then .ok (.str rest.dropLast)
    else .error (("toml: unterminated string").toList)
  | _ =>
    if !v.isEmpty && v.all Char.isDigit then .ok (.int (Int.ofNat (natOfDigits v)))
    else .error (("toml: invalid value").toList)

/-- Modelled from the spec: line-oriented decode of a TOML table block. -/
def tomlLines : List Str → Fm → Except Str Fm
  | [], acc => .ok acc
  | line :: rest, acc =>
    let t := trimSpace line
    if t.isEmpty then tomlLines rest acc
    else
      match t.findIdx? (fun c => c == '=') with
      | none => .error (("toml: expected key separator").toList)
      | some i =>
        match parseTomlValue (trimSpace (t.drop (i + 1))) with
        | .error e => .error e
        | .ok v => tomlLines rest (fmInsert acc (trimSpace (t.take i)) v)

/-- Modelled from the spec: the TOML decoder (external collaborator). -/
def miniTomlUnmarshal (b : Str) : Except Str Fm := tomlLines (splitOnChar '\n' b) []

/-- The tagged-strategy pair of readFrontmatter: an unmarshal function and its
delimiter line. -/
structure Unmarshaler where
  unmarshal : Str → Except Str Fm
  delimiter : Str

/-- The YAML opening delimiter line of readFrontmatter (the Go string
literal written out character by character). -/
def yamlDelim : Str := ['-', '-', '-', '\n']

/-- The TOML opening delimiter line of readFrontmatter. -/
def tomlDelim : Str := ['+', '+', '+', '\n']

/-- The ordered strategy table of readFrontmatter. -/
def unmarshalers : List Unmarshaler :=
  [⟨miniYamlUnmarshal, yamlDelim⟩, ⟨miniTomlUnmarshal, tomlDelim⟩]

/-- One notation's block search in readFrontmatter: the HasPrefix guard, the
first index of the opening delimiter (start), the search after it for a
newline immediately followed by the delimiter line (end), and the slice
content[start+len : start+len+end] strictly between the delimiters. Either
failed search yields none (the Go loop continues to the next notation). -/
def blockOf (delim t : Str) : Option Str :=
  if delim.isPrefixOf t then
    match byteIndex t delim with
    | none => none
    | some start =>
      match byteIndex (t.drop (start + delim.length)) ('\n' :: delim) with
      | none => none
      | some stop => some ((t.drop (start + delim.length)).take stop)
  else none

/-- The delete loop of readFrontmatter: remove every excluded key from the
decoded mapping. -/
def dropExcluded (excl : List Str) (fm : Fm) : Fm :=
  fm.filter (fun kv => !(excl.any (fun k => k == kv.1)))

/-- The loop body of readFrontmatter over the strategy table: on a found
block, decode it (a decode error is returned, not skipped), delete every
excluded key, and normalize an empty mapping to nil. -/
def tryUnmarshalers (excl : List Str) : List Unmarshaler → Str → Except Str (Option Fm)
  | [], _ => .ok none
  | u :: us, t =>
    match blockOf u.delimiter t with
    | none => tryUnmarshalers excl us t
    | some b =>
      match u.unmarshal b with
      | .error e => .error e
      | .ok fm =>
        if (dropExcluded excl fm).isEmpty then .ok none
        else .ok (some (dropExcluded excl fm))

/-- Server.readFrontmatter: trim the content, then try the YAML and TOML
notations in order. -/
def readFrontmatter (excl : List Str) (content : Str) : Except Str (Option Fm) :=
  tryUnmarshalers excl unmarshalers (trimSpace content)

/-- A filesystem entry as seen by the fs.WalkDir callback, in visit order
(depth-first, lexical per directory). infoErr models a failing d.Info or
fs.Stat; readErr models a failing fs.ReadFile; size is the byte length of
data, as in testing/fstest. -/
structure WalkEntry where
  path : Str
  isDir : Bool
  data : Str
  infoErr : Option Str
  readErr : Option Str
deriving DecidableEq

/-- A filesystem snapshot: the WalkDir visit sequence. -/
abbrev FS := List WalkEntry

/-- The error classes the server surfaces: fs.ErrNotExist (wrapped by
ReadFile and Stat), other I/O errors, decode errors of readFrontmatter, and
plain errors.New messages. -/
inductive SrvError where
  | notExist (path : Str)
  | ioErr (msg : Str)
  | decodeErr (msg : Str)
  | msg (s : Str)
deriving DecidableEq

/-- errors.Is(err, fs.ErrNotExist). -/
def SrvError.isNotExist : SrvError → Bool
  | .notExist _ => true
  | _ => false

/-- markdownFileInfo: path, byte size and decoded frontmatter of one file. -/
structure markdownFileInfo where
  path : Str
  size : Nat
  frontmatter : Option Fm
deriving DecidableEq

/-- filepath.Ext on a reversed path: scan from the end until a separator,
returning the suffix from the first dot found. -/
def extRevLoop : Str → Str → Str
  | [], _ => []
  | c :: t, acc =>
    if c == '/' then []
    else if c == '.' then '.' :: acc
    else extRevLoop t (c :: acc)

/-- filepath.Ext: the file name extension of the final path element. -/
def filepathExt (p : Str) : Str := extRevLoop p.reverse []

/-- The recognized markdown extension. -/
def mdExt : Str := (".md").toList

/-- filepath.Base: the final element of the path. -/
def filepathBase (p : Str) : Str :=
  if p.isEmpty then (".").toList
  else
    let q := p.reverse.dropWhile (fun c => c == '/')
    if q.isEmpty then ['/']
    else (q.takeWhile (fun c => !(c == '/'))).reverse

/-- Server.readMarkdownInfo: d.Info(), then fs.ReadFile, then
readFrontmatter; the first failure is returned. -/
def readMarkdownInfo (excl : List Str) (e : WalkEntry) : Except Str markdownFileInfo :=
  match e.infoErr with
  | some err => .error err
  | none =>
    match e.readErr with
    | some err => .error err
    | none =>
      match readFrontmatter excl e.data with
      | .error err => .error err
      | .ok fm => .ok ⟨e.path, e.data.length, fm⟩

/-- Server.markdownFiles collected by the consumer (slices.Collect or the
for-range of listResourcesOption): the fs.WalkDir callback skips directories
and non-.md paths, yields each markdownFileInfo, and returns the first
per-file error, which aborts the walk — but the iter.Seq closure discards
WalkDir's return value, so the consumer sees only the descriptors yielded
before the failure. The second component is the discarded walk error. -/
def markdownFiles (excl : List Str) : FS → List markdownFileInfo × Option Str
  | [] => ([], none)
  | e :: es =>
    if e.isDir then markdownFiles excl es
    else if !(filepathExt e.path == mdExt) then markdownFiles excl es
    else
      match readMarkdownInfo excl e with
      | .error err => ([], some err)
      | .ok i => (i :: (markdownFiles excl es).1, (markdownFiles excl es).2)

/-- listMarkdownFilesResponse. -/
structure listMarkdownFilesResponse where
  files : List markdownFileInfo
deriving DecidableEq

/-- Server.listMarkdownFiles: slices.Collect of the sequence; it never
returns an error, whatever happened during the walk. -/
def listMarkdownFiles (excl : List Str) (fs : FS) : Except SrvError listMarkdownFilesResponse :=
  .ok ⟨(markdownFiles excl fs).1⟩

/-- JSON string literal (escaping is not exercised by the catalog claims). -/
def jsonString (s : Str) : Str := '\"' :: (s ++ ['\"'])

/-- JSON form of one frontmatter value. -/
def jsonValue : FmValue → Str
  | .str s => jsonString s
  | .uint n => (toString n).toList
  | .int n => (toString n).toList
  | .seq l =>
    '[' :: (List.intercalate ([',']) (l.map jsonString)) ++ [']']

/-- json.Marshal of the frontmatter mapping: nil marshals to the literal
null; this cannot fail on decoded frontmatter values. -/
def jsonMarshal : Option Fm → Str
  | none => ("null").toList
  | some m =>
    Char.ofNat 123 ::
      (List.intercalate ([',']) (m.map (fun kv => jsonString kv.1 ++ ':' :: jsonValue kv.2))) ++
      [Char.ofNat 125]

/-- mcp.Resource as filled in by listResourcesOption. -/
structure Resource where
  uri : Str
  name : Str
  description : Str
  mimeType : Str
  size : Nat
deriving DecidableEq

/-- The fixed resource scheme used by the catalog builder and ReadResource. -/
def fileScheme : Str := ("file://").toList

/-- The fixed media type. -/
def mdMime : Str := ("text/markdown").toList

/-- The resource descriptor built for one scanned file: URI is the scheme
joined directly with the path, name the final path element, description the
JSON of the frontmatter. -/
def mkResource (f : markdownFileInfo) : Resource :=
  ⟨fileScheme ++ f.path, filepathBase f.path, jsonMarshal f.frontmatter, mdMime, f.size⟩

/-- Server.listResourcesOption: ranges over the markdownFiles sequence and
builds one resource per yielded descriptor. json.Marshal cannot fail here,
and a walk failure only truncates the sequence, so this returns ok. -/
def listResourcesOption (excl : List Str) (fs : FS) : Except SrvError (List Resource) :=
  .ok ((markdownFiles excl fs).1.map mkResource)

/-- fs.ReadFile by path: the first entry with the requested path; a missing
path is fs.ErrNotExist. -/
def findEntry (fs : FS) (p : Str) : Option WalkEntry :=
  fs.find? (fun e => e.path == p)

/-- fs.ReadFile. -/
def readFile (fs : FS) (p : Str) : Except SrvError Str :=
  match findEntry fs p with
  | none => .error (.notExist p)
  | some e =>
    if e.isDir then .error (.ioErr (("is a directory").toList))
    else
      match e.readErr with
      | some m => .error (.ioErr m)
      | none => .ok e.data

/-- fs.Stat, reduced to the size field the server uses. -/
def statSize (fs : FS) (p : Str) : Except SrvError Nat :=
  match findEntry fs p with
  | none => .error (.notExist p)
  | some e =>
    match e.infoErr with
    | some m => .error (.ioErr m)
    | none => .ok e.data.length

/-- readMarkdownFileResponse. -/
structure readMarkdownFileResponse where
  path : Str
  size : Nat
  frontmatter : Option Fm
  content : Str
deriving DecidableEq

/-- Server.readMarkdownFile: ReadFile, Stat, readFrontmatter, in that order;
the first failure is returned. -/
def readMarkdownFile (excl : List Str) (fs : FS) (path : Str) :
    Except SrvError readMarkdownFileResponse :=
  match readFile fs path with
  | .error e => .error e
  | .ok content =>
    match statSize fs path with
    | .error e => .error e
    | .ok size =>
      match readFrontmatter excl content with
      | .error e => .error (.decodeErr e)
      | .ok fm => .ok ⟨path, size, fm, content⟩

/-- mcp.TextResourceContents. -/
structure TextResourceContents where
  uri : Str
  text : Str
  mimeType : Str
deriving DecidableEq

/-- Server.ReadResource: any URI without the file:// scheme prefix is
rejected with errors.New of the message naming it; otherwise the prefix (7
bytes) is stripped and the file is read and returned verbatim as text with
the fixed media type. -/
def ReadResource (fs : FS) (uri : Str) : Except SrvError (List TextResourceContents) :=
  if fileScheme.isPrefixOf uri then
    match readFile fs (uri.drop 7) with
    | .error e => .error e
    | .ok content => .ok [⟨uri, content, mdMime⟩]
  else .error (.msg (("unsupported scheme: ").toList ++ uri))

/-- The frontmatter of a file, or nil when extraction errored or found
nothing; used only to phrase the error-free catalog statement. -/
def fmOrNone (excl : List Str) (d : Str) : Option Fm :=
  match readFrontmatter excl d with
  | .ok fm => fm
  | .error _ => none

/-- Follows the spec words of the catalog-completeness clause: one
descriptor per non-directory entry with the recognized extension, in walk
order, each with byte-exact size; to be compared with markdownFiles. -/
def specDescriptors (excl : List Str) (fs : FS) : List markdownFileInfo :=
  (fs.filter (fun e => !e.isDir && (filepathExt e.path == mdExt))).map
    (fun e => ⟨e.path, e.data.length, fmOrNone excl e.data⟩)

/-- Every non-directory .md entry of the snapshot passes readMarkdownInfo. -/
def allOk (excl : List Str) (fs : FS) : Bool :=
  fs.all (fun e => e.isDir || !(filepathExt e.path == mdExt) ||
    (match readMarkdownInfo excl e with | .ok _ => true | .error _ => false))

/-- The root directory entry WalkDir visits first. -/
def rootDir : WalkEntry := ⟨(".").toList, true, [], none, none⟩

/-- A well-formed markdown file without frontmatter. -/
def entA : WalkEntry := ⟨("a.md").toList, false, ("content1").toList, none, none⟩

/-- A markdown file whose YAML frontmatter block is malformed (unterminated
flow sequence), so readFrontmatter fails on it. -/
def entBbad : WalkEntry :=
  ⟨("b.md").toList, false, ("---\nx: [1, 2\n---\nBody").toList, none, none⟩

/-- A well-formed markdown file visited after the failing one. -/
def entC : WalkEntry := ⟨("c.md").toList, false, ("content3").toList, none, none⟩

/-- A snapshot with three .md files where the middle one fails to decode. -/
def c2fs : FS := [rootDir, entA, entBbad, entC]

/-- The snapshot of the repository's listMarkdownFiles test, in WalkDir
visit order: five regular .md files, a directory named fake.md, a .txt file
and nested directories. -/
def testFS : FS :=
  [rootDir,
   ⟨("another.md").toList, false, ("content4").toList, none, none⟩,
   ⟨("dir").toList, true, [], none, none⟩,
   ⟨("dir/file2.md").toList, false, ("---\ntitle: File 2\n---\ncontent2").toList, none, none⟩,
   ⟨("dir/subdir").toList, true, [], none, none⟩,
   ⟨("dir/subdir/f3.md").toList, false, ("content3").toList, none, none⟩,
   ⟨("fake.md").toList, true, [], none, none⟩,
   ⟨("file1.md").toList, false, ("content1").toList, none, none⟩,
   ⟨("noread.md").toList, false, ("cannot read").toList, none, none⟩,
   ⟨("skip.txt").toList, false, ("text").toList, none, none⟩]

example : readFrontmatter [] (("---\ntitle: T\n---\nBody").toList) =
    .ok (some [(("title").toList, .str (("T").toList))]) := by decide

example : readFrontmatter [] (("+++\ntitle = \"T\"\n+++\nBody").toList) =
    .ok (some [(("title").toList, .str (("T").toList))]) := by decide

example : readFrontmatter [] (("---\nvalue: 123\n---\nBody").toList) =
    .ok (some [(("value").toList, .uint 123)]) := by decide

example : readFrontmatter [] (("+++\nvalue = 456\n+++\nBody").toList) =
    .ok (some [(("value").toList, .int 456)]) := by decide

example : readFrontmatter [] (("---\n---").toList) = .ok none := by decide

example : readFrontmatter [] [] = .ok none := by decide

theorem isPrefixOf_append_self (l m : Str) : l.isPrefixOf (l ++ m) = true := by
  induction l with
  | nil => simp [List.isPrefixOf]
  | cons c t ih => simp [List.isPrefixOf, ih]

theorem blockOf_isPrefixOf {d t : Str} {b : Str} (h : blockOf d t = some b) :
    d.isPrefixOf t = true := by
  by_cases hp : d.isPrefixOf t = true
  · exact hp
  · rw [Bool.not_eq_true] at hp
    simp [blockOf, hp] at h

theorem toml_excludes_yaml {t : Str} (h : tomlDelim.isPrefixOf t = true) :
    yamlDelim.isPrefixOf t = false := by
  cases t with
  | nil => simp [tomlDelim, List.isPrefixOf] at h
  | cons c cs =>
    simp only [tomlDelim, List.isPrefixOf, Bool.and_eq_true, beq_iff_eq] at h
    obtain ⟨hc, _⟩ := h
    subst hc
    rfl

/-- C3: if the trimmed input starts with a notation's opening delimiter and a
block strictly between matching delimiters is found, but the block is
malformed for that notation's decoder, readFrontmatter returns that decode
error — it does not fall through to the other notation and yields no
mapping. -/
theorem decode_error_propagates (excl : List Str) (content : Str) (e : Str) :
    (∀ b, blockOf yamlDelim (trimSpace content) = some b →
      miniYamlUnmarshal b = .error e → readFrontmatter excl content = .error e) ∧
    (∀ b, blockOf tomlDelim (trimSpace content) = some b →
      miniTomlUnmarshal b = .error e → readFrontmatter excl content = .error e) := by
  constructor
  · intro b hb he
    simp [readFrontmatter, unmarshalers, tryUnmarshalers, hb, he]
  · intro b hb he
    have hp := blockOf_isPrefixOf hb
    have hy : yamlDelim.isPrefixOf (trimSpace content) = false := toml_excludes_yaml hp
    have hby : blockOf yamlDelim (trimSpace content) = none := by simp [blockOf, hy]
    simp [readFrontmatter, unmarshalers, tryUnmarshalers, hby, hb, he]

/-- Witness for C3: the malformed-YAML input of the repository test. -/
theorem decode_error_propagates_witness :
    readFrontmatter [] (("---\ntitle: Test Invalid YAML\nvalue: [1, 2\n---\nRegular content").toList) =
      .error (("yaml: unterminated flow sequence").toList) :=
  (decode_error_propagates []
      (("---\ntitle: Test Invalid YAML\nvalue: [1, 2\n---\nRegular content").toList)
      (("yaml: unterminated flow sequence").toList)).1
    (("title: Test Invalid YAML\nvalue: [1, 2").toList) (by decide) (by decide)

/-- C5: with no recognizable opening delimiter on the trimmed content, or
with an opening delimiter that is never followed by a matching closing
delimiter, readFrontmatter returns absent with no error. -/
theorem no_delimiter_or_no_close_yields_absent (excl : List Str) (content : Str) :
    (yamlDelim.isPrefixOf (trimSpace content) = false →
      tomlDelim.isPrefixOf (trimSpace content) = false →
      readFrontmatter excl content = .ok none) ∧
    (blockOf yamlDelim (trimSpace content) = none →
      blockOf tomlDelim (trimSpace content) = none →
      readFrontmatter excl content = .ok none) := by
  constructor
  · intro hy ht
    have hby : blockOf yamlDelim (trimSpace content) = none := by simp [blockOf, hy]
    have hbt : blockOf tomlDelim (trimSpace content) = none := by simp [blockOf, ht]
    simp [readFrontmatter, unmarshalers, tryUnmarshalers, hby, hbt]
  · intro hby hbt
    simp [readFrontmatter, unmarshalers, tryUnmarshalers, hby, hbt]

/-- Witness for C5: the empty input, an input with no delimiter, and an
opening delimiter whose close never appears. -/
theorem no_delimiter_or_no_close_yields_absent_witness :
    readFrontmatter [] [] = .ok none ∧
    readFrontmatter [] (("Just regular content").toList) = .ok none ∧
    readFrontmatter [] (("---\nopen but never closed").toList) = .ok none :=
  ⟨(no_delimiter_or_no_close_yields_absent [] []).1 (by decide) (by decide),
   (no_delimiter_or_no_close_yields_absent [] (("Just regular content").toList)).1
     (by decide) (by decide),
   (no_delimiter_or_no_close_yields_absent [] (("---\nopen but never closed").toList)).2
     (by decide) (by decide)⟩

theorem tryUnmarshalers_ok_some (excl : List Str) (us : List Unmarshaler) (t : Str)
    (m : Fm) (h : tryUnmarshalers excl us t = .ok (some m)) :
    m.isEmpty = false ∧ m.all (fun kv => !(excl.any (fun k => k == kv.1))) = true := by
  induction us with
  | nil => simp [tryUnmarshalers] at h
  | cons u us ih =>
    rw [tryUnmarshalers] at h
    cases hb : blockOf u.delimiter t with
    | none => simp only [hb] at h; exact ih h
    | some b =>
      simp only [hb] at h
      cases hu : u.unmarshal b with
      | error e => simp [hu] at h
      | ok fm =>
        simp only [hu] at h
        split at h
        · simp at h
        · rename_i hne
          have hm : dropExcluded excl fm = m := Option.some.inj (Except.ok.inj h)
          constructor
          · rw [← hm]
            exact Bool.of_not_eq_true hne
          · rw [← hm]
            refine List.all_eq_true.2 ?_
            intro kv hkv
            rw [dropExcluded] at hkv
            exact (List.mem_filter.1 hkv).2

/-- C4: after a successful decode every excluded key is removed — a present
mapping returned by readFrontmatter is non-empty and contains no key of the
configured excluded-key set — and whenever the decoded-then-filtered mapping
has zero entries (because the block was empty or because every decoded key
was excluded), extraction returns absent (.ok none): never an empty mapping,
and no error. -/
theorem excluded_keys_removed_and_never_empty (excl : List Str) (content : Str) :
    (∀ m : Fm, readFrontmatter excl content = .ok (some m) →
      m.isEmpty = false ∧ m.all (fun kv => !(excl.any (fun k => k == kv.1))) = true) ∧
    (∀ b fm, blockOf yamlDelim (trimSpace content) = some b →
      miniYamlUnmarshal b = .ok fm → (dropExcluded excl fm).isEmpty = true →
      readFrontmatter excl content = .ok none) ∧
    (∀ b fm, blockOf tomlDelim (trimSpace content) = some b →
      miniTomlUnmarshal b = .ok fm → (dropExcluded excl fm).isEmpty = true →
      readFrontmatter excl content = .ok none) := by
  refine ⟨fun m h => tryUnmarshalers_ok_some excl unmarshalers (trimSpace content) m h,
    ?_, ?_⟩
  · intro b fm hb hfm hemp
    simp [readFrontmatter, unmarshalers, tryUnmarshalers, hb, hfm, hemp]
  · intro b fm hb hfm hemp
    have hp := blockOf_isPrefixOf hb
    have hy : yamlDelim.isPrefixOf (trimSpace content) = false := toml_excludes_yaml hp
    have hby : blockOf yamlDelim (trimSpace content) = none := by simp [blockOf, hy]
    simp [readFrontmatter, unmarshalers, tryUnmarshalers, hby, hb, hfm, hemp]

/-- Witness for C4: excluding the draft key leaves only the non-empty title
mapping; excluding the only decoded key yields absent with no error; an
empty block followed by a body also yields absent with no error. -/
theorem excluded_keys_removed_and_never_empty_witness :
    (([((("title").toList : Str), FmValue.str (("T").toList))] : Fm).isEmpty = false ∧
      ([((("title").toList : Str), FmValue.str (("T").toList))] : Fm).all
        (fun kv => !([((("draft").toList) : Str)].any (fun k => k == kv.1))) = true) ∧
    readFrontmatter [(("title").toList)] (("---\ntitle: T\n---\nBody").toList) = .ok none ∧
    readFrontmatter [] (("---\n\n---\nBody").toList) = .ok none :=
  ⟨(excluded_keys_removed_and_never_empty [(("draft").toList)]
      (("---\ntitle: T\ndraft: x\n---\nBody").toList)).1
      [((("title").toList), FmValue.str (("T").toList))] (by decide),
   (excluded_keys_removed_and_never_empty [(("title").toList)]
      (("---\ntitle: T\n---\nBody").toList)).2.1
      (("title: T").toList) [((("title").toList), FmValue.str (("T").toList))]
      (by decide) (by decide) (by decide),
   (excluded_keys_removed_and_never_empty [] (("---\n\n---\nBody").toList)).2.1
      [] [] (by decide) (by decide) (by decide)⟩

/-- C1: the two frontmatter scenarios of the spec, and the preservation of
the two numeric families: the YAML notation yields title T, the TOML
notation yields title T; a numeric value decodes into the unsigned family
under YAML and into the signed family under TOML, and the two families are
distinct values, not coerced to one type. -/
theorem frontmatter_scenarios_both_notations :
    readFrontmatter [] (("---\ntitle: T\n---\nBody").toList) =
      .ok (some [(("title").toList, .str (("T").toList))]) ∧
    readFrontmatter [] (("+++\ntitle = \"T\"\n+++\nBody").toList) =
      .ok (some [(("title").toList, .str (("T").toList))]) ∧
    readFrontmatter [] (("---\nvalue: 123\n---\nBody").toList) =
      .ok (some [(("value").toList, .uint 123)]) ∧
    readFrontmatter [] (("+++\nvalue = 456\n+++\nBody").toList) =
      .ok (some [(("value").toList, .int 456)]) ∧
    ((FmValue.uint 123 == FmValue.int 123) = false) :=
  ⟨by decide, by decide, by decide, by decide, by decide⟩

theorem dropWhile_all_append (p : Char → Bool) (l₁ l₂ : Str) (h : l₁.all p = true) :
    (l₁ ++ l₂).dropWhile p = l₂.dropWhile p := by
  induction l₁ with
  | nil => rfl
  | cons c t ih =>
    simp only [List.all_cons, Bool.and_eq_true] at h
    simp [List.dropWhile_cons, h.1, ih h.2]

theorem trimSpace_sandwich (a : Str) (c₁ c₂ : Char) (ws : Str)
    (h₁ : isSpaceChar c₁ = false) (h₂ : isSpaceChar c₂ = false)
    (hws : ws.all isSpaceChar = true) :
    trimSpace ((c₁ :: a) ++ [c₂] ++ ws) = (c₁ :: a) ++ [c₂] := by
  have hrev : (ws.reverse).all isSpaceChar = true := by simpa using hws
  rw [trimSpace]
  have e1 : (((c₁ :: a) ++ [c₂] ++ ws).dropWhile isSpaceChar) = (c₁ :: a) ++ [c₂] ++ ws := by
    have e0 : (c₁ :: a) ++ [c₂] ++ ws = c₁ :: (a ++ [c₂] ++ ws) := by simp
    rw [e0, List.dropWhile_cons, h₁]
    simp
  rw [e1]
  have e2 : ((c₁ :: a) ++ [c₂] ++ ws).reverse = ws.reverse ++ (c₂ :: (a.reverse ++ [c₁])) := by
    simp
  rw [e2, dropWhile_all_append _ _ _ hrev, List.dropWhile_cons, h₂]
  simp

/-- C10: an input whose closing delimiter line is the last non-whitespace
content: the whole input is trimmed before matching, and the close search
wants a newline followed by the newline-terminated delimiter line inside
the trimmed bytes, so a close at end-of-input is never found; the notation
falls through and extraction is absent with no error. -/
theorem close_at_eof_falls_through (excl : List Str) (body ws : Str)
    (hws : ws.all isSpaceChar = true) :
    (byteIndex (body ++ ('\n' :: ['-', '-', '-'])) ('\n' :: yamlDelim) = none →
      readFrontmatter excl ((yamlDelim ++ (body ++ ('\n' :: ['-', '-', '-']))) ++ ws) =
        .ok none) ∧
    (byteIndex (body ++ ('\n' :: ['+', '+', '+'])) ('\n' :: tomlDelim) = none →
      readFrontmatter excl ((tomlDelim ++ (body ++ ('\n' :: ['+', '+', '+']))) ++ ws) =
        .ok none) := by
  constructor
  · intro hnc
    have hshape : yamlDelim ++ (body ++ ('\n' :: ['-', '-', '-'])) =
        ('-' :: ('-' :: '-' :: '\n' :: (body ++ ['\n', '-', '-']))) ++ ['-'] := by
      simp [yamlDelim]
    have htrim : trimSpace ((yamlDelim ++ (body ++ ('\n' :: ['-', '-', '-']))) ++ ws) =
        yamlDelim ++ (body ++ ('\n' :: ['-', '-', '-'])) := by
      rw [hshape]
      exact trimSpace_sandwich _ '-' '-' ws rfl rfl hws
    have hpre : yamlDelim.isPrefixOf (yamlDelim ++ (body ++ ('\n' :: ['-', '-', '-']))) = true :=
      isPrefixOf_append_self _ _
    have hidx : byteIndex (yamlDelim ++ (body ++ ('\n' :: ['-', '-', '-']))) yamlDelim =
        some 0 := by
      simp [byteIndex, hpre]
    have hdrop : (yamlDelim ++ (body ++ ('\n' :: ['-', '-', '-']))).drop (0 + yamlDelim.length) =
        body ++ ('\n' :: ['-', '-', '-']) := by
      simp
    have hb : blockOf yamlDelim (yamlDelim ++ (body ++ ('\n' :: ['-', '-', '-']))) = none := by
      rw [blockOf]
      simp [hpre, hidx, hdrop, hnc]
    have hpt : tomlDelim.isPrefixOf (yamlDelim ++ (body ++ ('\n' :: ['-', '-', '-']))) = false :=
      rfl
    have hbt : blockOf tomlDelim (yamlDelim ++ (body ++ ('\n' :: ['-', '-', '-']))) = none := by
      simp [blockOf, hpt]
    rw [readFrontmatter, htrim]
    simp [unmarshalers, tryUnmarshalers, hb, hbt]
  · intro hnc
    have hshape : tomlDelim ++ (body ++ ('\n' :: ['+', '+', '+'])) =
        ('+' :: ('+' :: '+' :: '\n' :: (body ++ ['\n', '+', '+']))) ++ ['+'] := by
      simp [tomlDelim]
    have htrim : trimSpace ((tomlDelim ++ (body ++ ('\n' :: ['+', '+', '+']))) ++ ws) =
        tomlDelim ++ (body ++ ('\n' :: ['+', '+', '+'])) := by
      rw [hshape]
      exact trimSpace_sandwich _ '+' '+' ws rfl rfl hws
    have hpre : tomlDelim.isPrefixOf (tomlDelim ++ (body ++ ('\n' :: ['+', '+', '+']))) = true :=
      isPrefixOf_append_self _ _
    have hidx : byteIndex (tomlDelim ++ (body ++ ('\n' :: ['+', '+', '+']))) tomlDelim =
        some 0 := by
      simp [byteIndex, hpre]
    have hdrop : (tomlDelim ++ (body ++ ('\n' :: ['+', '+', '+']))).drop (0 + tomlDelim.length) =
        body ++ ('\n' :: ['+', '+', '+']) := by
      simp
    have hb : blockOf tomlDelim (tomlDelim ++ (body ++ ('\n' :: ['+', '+', '+']))) = none := by
      rw [blockOf]
      simp [hpre, hidx, hdrop, hnc]
    have hpy : yamlDelim.isPrefixOf (tomlDelim ++ (body ++ ('\n' :: ['+', '+', '+']))) = false :=
      rfl
    have hby : blockOf yamlDelim (tomlDelim ++ (body ++ ('\n' :: ['+', '+', '+']))) = none := by
      simp [blockOf, hpy]
    rw [readFrontmatter, htrim]
    simp [unmarshalers, tryUnmarshalers, hb, hby]

/-- Witness for C10: the file consisting of a YAML block closed on the last
line, with a trailing newline and no body after the close. -/
theorem close_at_eof_falls_through_witness :
    readFrontmatter []
      ((yamlDelim ++ ((("title: T").toList) ++ ('\n' :: ['-', '-', '-']))) ++ ('\n' :: [])) =
      .ok none :=
  (close_at_eof_falls_through [] (("title: T").toList) ('\n' :: []) (by decide)).1 (by decide)

theorem readMarkdownInfo_ok (excl : List Str) (e : WalkEntry) (i : markdownFileInfo)
    (h : readMarkdownInfo excl e = .ok i) :
    e.infoErr = none ∧ e.readErr = none ∧
    i = ⟨e.path, e.data.length, fmOrNone excl e.data⟩ := by
  rw [readMarkdownInfo] at h
  cases hinfo : e.infoErr with
  | some m => simp [hinfo] at h
  | none =>
    simp only [hinfo] at h
    cases hread : e.readErr with
    | some m => simp [hread] at h
    | none =>
      simp only [hread] at h
      cases hfm : readFrontmatter excl e.data with
      | error er => simp [hfm] at h
      | ok fm =>
        simp only [hfm] at h
        exact ⟨rfl, rfl, by simp [fmOrNone, hfm, ← Except.ok.inj h]⟩

theorem markdownFiles_append (excl : List Str) (l₁ l₂ : FS) :
    markdownFiles excl (l₁ ++ l₂) =
      match (markdownFiles excl l₁).2 with
      | some _ => markdownFiles excl l₁
      | none => ((markdownFiles excl l₁).1 ++ (markdownFiles excl l₂).1,
                 (markdownFiles excl l₂).2) := by
  induction l₁ with
  | nil => simp [markdownFiles]
  | cons a l₁ ih =>
    cases hd : a.isDir with
    | true => simpa [markdownFiles, hd] using ih
    | false =>
      cases hx : filepathExt a.path == mdExt with
      | false => simpa [markdownFiles, hd, hx] using ih
      | true =>
        cases hr : readMarkdownInfo excl a with
        | error err => simp [markdownFiles, hd, hx, hr]
        | ok i =>
          simp only [List.cons_append, markdownFiles, hd, hx, hr, Bool.not_true,
            Bool.false_eq_true, if_false, if_true, List.append_eq]
          rw [ih]
          cases h2 : (markdownFiles excl l₁).2 with
          | some err => simp [h2]
          | none => simp

/-- C2 counterexample: in the snapshot c2fs the file b.md fails frontmatter
decoding during the scan, yet listMarkdownFiles returns a partial descriptor
list (a.md only — c.md was never reached) with no error, and the catalog
build of server construction succeeds instead of failing. -/
theorem scan_error_swallowed :
    (markdownFiles [] c2fs).2 = some (("yaml: unterminated flow sequence").toList) ∧
    listMarkdownFiles [] c2fs = .ok ⟨[⟨("a.md").toList, 8, none⟩]⟩ ∧
    listResourcesOption [] c2fs =
      .ok [⟨("file://a.md").toList, ("a.md").toList, ("null").toList, mdMime, 8⟩] :=
  ⟨by decide, by decide, by decide⟩

/-- C2 amended: a stat, read, or decode failure on a file aborts the walk at
that file — no descriptor for it or for any later entry is produced — but
the iterator adapter discards the walk error: the consumer receives the
descriptors yielded before the failure, listMarkdownFiles returns that
partial list with no error, and the catalog build of server construction
succeeds on the partial catalog. -/
theorem scan_aborts_but_error_discarded (excl : List Str) (pre : FS) (e : WalkEntry)
    (post : FS) (err : Str)
    (hpre : (markdownFiles excl pre).2 = none)
    (hdir : e.isDir = false)
    (hext : filepathExt e.path = mdExt)
    (herr : readMarkdownInfo excl e = .error err) :
    markdownFiles excl (pre ++ e :: post) = ((markdownFiles excl pre).1, some err) ∧
    listMarkdownFiles excl (pre ++ e :: post) = .ok ⟨(markdownFiles excl pre).1⟩ ∧
    listResourcesOption excl (pre ++ e :: post) =
      .ok ((markdownFiles excl pre).1.map mkResource) := by
  have he : markdownFiles excl (e :: post) = ([], some err) := by
    simp [markdownFiles, hdir, hext, herr]
  have key := markdownFiles_append excl pre (e :: post)
  rw [hpre, he] at key
  simp only [List.append_nil] at key
  exact ⟨key, by simp [listMarkdownFiles, key], by simp [listResourcesOption, key]⟩

/-- Witness for C2 amended: a.md scanned before the failing b.md ends up as
the whole partial catalog; c.md after it is never scanned. -/
theorem scan_aborts_but_error_discarded_witness :
    markdownFiles [] ([rootDir, entA] ++ entBbad :: [entC]) =
      ((markdownFiles [] [rootDir, entA]).1,
        some (("yaml: unterminated flow sequence").toList)) ∧
    listMarkdownFiles [] ([rootDir, entA] ++ entBbad :: [entC]) =
      .ok ⟨(markdownFiles [] [rootDir, entA]).1⟩ ∧
    listResourcesOption [] ([rootDir, entA] ++ entBbad :: [entC]) =
      .ok ((markdownFiles [] [rootDir, entA]).1.map mkResource) :=
  scan_aborts_but_error_discarded [] [rootDir, entA] entBbad [entC]
    (("yaml: unterminated flow sequence").toList)
    (by decide) (by decide) (by decide) (by decide)

/-- C6 counterexample: c2fs holds exactly three non-directory entries with
the .md extension, yet the scan's descriptor list has a single element. -/
theorem catalog_count_counterexample :
    (c2fs.filter (fun e => !e.isDir && (filepathExt e.path == mdExt))).length = 3 ∧
    ((markdownFiles [] c2fs).1).length = 1 :=
  ⟨by decide, by decide⟩

/-- C6 amended: when every non-directory .md entry of the snapshot passes
stat, read and decode, the scan result equals the reference descriptor list
(one descriptor per such entry, in walk order, with byte-exact size and no
directory or other-extension entry), so the list and the listMarkdownFiles
response have exactly N descriptors. -/
theorem catalog_complete_when_all_files_ok (excl : List Str) (fs : FS)
    (h : allOk excl fs = true) :
    markdownFiles excl fs = (specDescriptors excl fs, none) ∧
    ((markdownFiles excl fs).1).length =
      (fs.filter (fun e => !e.isDir && (filepathExt e.path == mdExt))).length ∧
    listMarkdownFiles excl fs = .ok ⟨specDescriptors excl fs⟩ := by
  have aux : ∀ gs : FS, allOk excl gs = true →
      markdownFiles excl gs = (specDescriptors excl gs, none) := by
    intro gs
    induction gs with
    | nil => intro _; rfl
    | cons e es ih =>
      intro hg
      rw [allOk, List.all_cons, Bool.and_eq_true] at hg
      obtain ⟨h1, h2⟩ := hg
      have ih2 := ih (by rw [allOk]; exact h2)
      cases hd : e.isDir with
      | true => simp [markdownFiles, specDescriptors, List.filter_cons, hd, ih2]
      | false =>
        cases hx : filepathExt e.path == mdExt with
        | false => simp [markdownFiles, specDescriptors, List.filter_cons, hd, hx, ih2]
        | true =>
          cases hr : readMarkdownInfo excl e with
          | error err => simp [hd, hx, hr] at h1
          | ok i =>
            obtain ⟨_, _, hi⟩ := readMarkdownInfo_ok excl e i hr
            simp [markdownFiles, specDescriptors, List.filter_cons, hd, hx, hr, ih2, hi]
  have key := aux fs h
  refine ⟨key, ?_, by simp [listMarkdownFiles, key]⟩
  simp [key, specDescriptors]

theorem markdownFiles_mem_entry (excl : List Str) (fs : FS) (f : markdownFileInfo)
    (hnd : (fs.map WalkEntry.path).Nodup)
    (hf : f ∈ (markdownFiles excl fs).1) :
    ∃ e, findEntry fs f.path = some e ∧ e.isDir = false ∧ e.readErr = none ∧
      f.size = e.data.length ∧ f.path = e.path := by
  induction fs with
  | nil => simp [markdownFiles] at hf
  | cons a es ih =>
    rw [List.map_cons, List.nodup_cons] at hnd
    obtain ⟨hna, hnd2⟩ := hnd
    have lift : (f ∈ (markdownFiles excl es).1) →
        ∃ e, findEntry (a :: es) f.path = some e ∧ e.isDir = false ∧ e.readErr = none ∧
          f.size = e.data.length ∧ f.path = e.path := by
      intro hmem
      obtain ⟨e, he, hdir, hre, hsz, hp⟩ := ih hnd2 hmem
      rw [findEntry] at he
      have hps := List.find?_some he
      simp only [beq_iff_eq] at hps
      have hep : e.path = f.path := hps
      have hemem : e ∈ es := List.mem_of_find?_eq_some he
      have hane : (a.path == f.path) = false := by
        refine beq_eq_false_iff_ne.2 ?_
        intro hcontra
        exact hna (by
          rw [hcontra, ← hep]
          exact List.mem_map_of_mem WalkEntry.path hemem)
      refine ⟨e, ?_, hdir, hre, hsz, hp⟩
      rw [findEntry, List.find?_cons]
      simp only [hane, cond_false]
      exact he
    cases hd : a.isDir with
    | true =>
      simp only [markdownFiles, hd, if_true] at hf
      exact lift hf
    | false =>
      cases hx : filepathExt a.path == mdExt with
      | false =>
        simp only [markdownFiles, hd, hx, Bool.not_false, Bool.false_eq_true, if_false,
          if_true] at hf
        exact lift hf
      | true =>
        cases hr : readMarkdownInfo excl a with
        | error err =>
          simp only [markdownFiles, hd, hx, Bool.not_true, Bool.false_eq_true, if_false,
            hr] at hf
          simp at hf
        | ok i =>
          simp only [markdownFiles, hd, hx, Bool.not_true, Bool.false_eq_true, if_false,
            hr, List.mem_cons] at hf
          cases hf with
          | inl hfi =>
            obtain ⟨hinfo, hread, hi⟩ := readMarkdownInfo_ok excl a i hr
            subst hfi
            rw [hi]
            refine ⟨a, ?_, hd, hread, rfl, rfl⟩
            rw [findEntry, List.find?_cons]
            simp
          | inr hmem => exact lift hmem

/-- C7: address round-trip. Every descriptor the catalog builder sees yields
the resource address formed by joining the fixed scheme prefix directly with
the logical path; ReadResource on that address strips the 7-byte prefix,
recovers exactly the path, and returns the underlying file's bytes verbatim
as text with the fixed text/markdown media type. -/
theorem resource_address_roundtrip (excl : List Str) (fs : FS) (f : markdownFileInfo)
    (hnd : (fs.map WalkEntry.path).Nodup)
    (hf : f ∈ (markdownFiles excl fs).1) :
    (mkResource f).uri = fileScheme ++ f.path ∧
    (fileScheme ++ f.path).drop 7 = f.path ∧
    ∃ d, readFile fs f.path = .ok d ∧ f.size = d.length ∧
      ReadResource fs (mkResource f).uri = .ok [⟨fileScheme ++ f.path, d, mdMime⟩] := by
  obtain ⟨e, hfind, hdir, hre, hsz, hp⟩ := markdownFiles_mem_entry excl fs f hnd hf
  have hdrop : (fileScheme ++ f.path).drop 7 = f.path := by
    have h7 : fileScheme.length = 7 := rfl
    rw [← h7, List.drop_left]
  have hread : readFile fs f.path = .ok e.data := by
    rw [readFile]
    simp only [hfind]
    simp [hdir, hre]
  refine ⟨rfl, hdrop, e.data, hread, hsz, ?_⟩
  rw [ReadResource]
  have huri : (mkResource f).uri = fileScheme ++ f.path := rfl
  rw [huri]
  simp only [isPrefixOf_append_self, if_true, hdrop, hread]

/-- Witness for C7: the one descriptor of c2fs's partial catalog. -/
theorem resource_address_roundtrip_witness :
    (mkResource ⟨("a.md").toList, 8, none⟩).uri = fileScheme ++ (("a.md").toList) ∧
    (fileScheme ++ (("a.md").toList)).drop 7 = ("a.md").toList ∧
    ∃ d, readFile c2fs (("a.md").toList) = .ok d ∧ 8 = d.length ∧
      ReadResource c2fs (mkResource ⟨("a.md").toList, 8, none⟩).uri =
        .ok [⟨fileScheme ++ (("a.md").toList), d, mdMime⟩] :=
  resource_address_roundtrip [] c2fs ⟨("a.md").toList, 8, none⟩ (by decide) (by decide)

theorem byteIndex_append_isSome (pre l : Str) : (byteIndex (pre ++ l) l).isSome = true := by
  induction pre with
  | nil =>
    have hp : l.isPrefixOf l = true := by
      have h0 := isPrefixOf_append_self l []
      rwa [List.append_nil] at h0
    rw [List.nil_append, byteIndex.eq_def]
    simp [hp]
  | cons a pre ih =>
    rw [List.cons_append, byteIndex]
    by_cases hp : l.isPrefixOf (a :: (pre ++ l)) = true
    · simp [hp]
    · rw [Bool.not_eq_true] at hp
      simp [hp, ih]

/-- C8: a resource-read whose URI does not carry the file scheme prefix is
rejected with a hard error and no content; the message is the scheme
complaint joined with the full URI, so it contains the URI — and for the
http example the message contains the offending scheme name http. -/
theorem unsupported_scheme_error (fs : FS) (uri : Str)
    (h : fileScheme.isPrefixOf uri = false) :
    ReadResource fs uri = .error (.msg ((("unsupported scheme: ").toList) ++ uri)) ∧
    (byteIndex ((("unsupported scheme: ").toList) ++ uri) uri).isSome = true ∧
    (byteIndex (("unsupported scheme: http://example.com/file.md").toList)
      (("http").toList)).isSome = true := by
  refine ⟨?_, byteIndex_append_isSome _ _, by decide⟩
  rw [ReadResource]
  simp [h]

/-- Witness for C8: the http URI of the repository test. -/
theorem unsupported_scheme_error_witness :
    ReadResource c2fs (("http://example.com/file.md").toList) =
      .error (.msg ((("unsupported scheme: ").toList) ++
        (("http://example.com/file.md").toList))) ∧
    (byteIndex ((("unsupported scheme: ").toList) ++ (("http://example.com/file.md").toList))
      (("http://example.com/file.md").toList)).isSome = true ∧
    (byteIndex (("unsupported scheme: http://example.com/file.md").toList)
      (("http").toList)).isSome = true :=
  unsupported_scheme_error c2fs (("http://example.com/file.md").toList) (by decide)

/-- C9: a logical path that resolves to no file makes readMarkdownFile
return the not-exist error class and no DocumentContent; the class tests
positively under errors.Is(fs.ErrNotExist) and is distinguishable from the
other error classes. -/
theorem read_missing_path_not_found (excl : List Str) (fs : FS) (p : Str)
    (h : findEntry fs p = none) :
    readMarkdownFile excl fs p = .error (.notExist p) ∧
    (SrvError.notExist p).isNotExist = true ∧
    (∀ m, (SrvError.ioErr m).isNotExist = false) ∧
    (∀ m, (SrvError.decodeErr m).isNotExist = false) := by
  refine ⟨?_, rfl, fun m => rfl, fun m => rfl⟩
  rw [readMarkdownFile, readFile, h]

/-- Witness for C9: the non-existent path of the repository test. -/
theorem read_missing_path_not_found_witness :
    readMarkdownFile [] c2fs (("not/a/file.md").toList) =
      .error (.notExist (("not/a/file.md").toList)) ∧
    (SrvError.notExist (("not/a/file.md").toList)).isNotExist = true ∧
    (∀ m, (SrvError.ioErr m).isNotExist = false) ∧
    (∀ m, (SrvError.decodeErr m).isNotExist = false) :=
  read_missing_path_not_found [] c2fs (("not/a/file.md").toList) (by decide)

/-- Witness for C6 amended: the repository test snapshot, whose five .md
files all process cleanly, yields exactly the five reference descriptors. -/
theorem catalog_complete_when_all_files_ok_witness :
    markdownFiles [] testFS = (specDescriptors [] testFS, none) ∧
    ((markdownFiles [] testFS).1).length =
      (testFS.filter (fun e => !e.isDir && (filepathExt e.path == mdExt))).length ∧
    listMarkdownFiles [] testFS = .ok ⟨specDescriptors [] testFS⟩ :=
  catalog_complete_when_all_files_ok [] testFS (by decide)
